import Mathlib

/-!
Verification development for the density-based rehearsal-free calibration engine
in src/engines/hide_promtp_wtp_and_tap_engine.py.

The Python source is shallowly embedded: feature vectors are lists of real
numbers, per-class statistic dictionaries are functions into Option, the
module-level mutable matrices (WSDMatrix, WSDMatrix_eval) are functions
from a pair of class ids to a real, updated by explicit state passing, and
stochastic draws (MultivariateNormal.sample, KMeans, ot.emd2, torch.randperm)
are abstracted as explicit oracle parameters, since only their shapes and the
surrounding control flow are at issue in the claims.
-/

namespace TCLEngine

/-! ## Definitions -/

/-! ### Distance matrix fill (update_WSM, lines 540-554; update_WSM_eval, lines 556-570)

A matrix entry is a real number indexed by two class ids.  The source keeps two
module-level matrices with identical fill logic (one over org_cls_mean, one over
cls_mean); both are instances of update_WSM below.  The distance value for a
pair is computed by wsd_gmm_s (lines 591-606), which draws random samples and
solves a discrete optimal-transport problem; that computation is abstracted as
the oracle d.  -/

/-- One iteration of the doubly nested loop body in update_WSM (lines 545-551):
if the entry at p is already non-zero, skip; otherwise write the computed
distance to the entry and its mirror. -/
noncomputable def wsdStep (d : ℕ → ℕ → ℝ) (M : ℕ → ℕ → ℝ) (p : ℕ × ℕ) : ℕ → ℕ → ℝ :=
  fun a b =>
    if M p.1 p.2 ≠ 0 then M a b
    else if (a = p.1 ∧ b = p.2) ∨ (a = p.2 ∧ b = p.1) then d p.1 p.2 else M a b

/-- The iteration order of the nested loops `for i in class_ids: for j in class_ids:`. -/
def classPairs (ids : List ℕ) : List (ℕ × ℕ) :=
  ids.flatMap (fun i => ids.map (fun j => (i, j)))

/-- update_WSM (lines 540-554): fill the matrix over all ordered pairs of the
given class ids, skipping entries that are already non-zero.  update_WSM_eval
(lines 556-570) is the same function applied to the other matrix/dictionary. -/
noncomputable def update_WSM (d : ℕ → ℕ → ℝ) (ids : List ℕ) (M : ℕ → ℕ → ℝ) : ℕ → ℕ → ℝ :=
  (classPairs ids).foldl (wsdStep d) M

/-- The all-zero initial matrix (line 259 / line 262: torch.zeros). -/
def zeroWSM : ℕ → ℕ → ℝ := fun _ _ => 0

/-- A sequence of fill invocations, each with its own distance oracle and class
id set, applied to the all-zero initial matrix. -/
noncomputable def runFills (invs : List ((ℕ → ℕ → ℝ) × List ℕ)) : ℕ → ℕ → ℝ :=
  invs.foldl (fun M inv => update_WSM inv.1 inv.2 M) zeroWSM

/-- Exact symmetry of a matrix. -/
def SymmM (M : ℕ → ℕ → ℝ) : Prop := ∀ i j, M i j = M j i

/-- Fixed-point condition for a single loop iteration: the entry is already
non-zero (so the iteration skips it), or rewriting it changes nothing because
the computed distance and the mirror entry are both zero. -/
def FixedAt (d : ℕ → ℕ → ℝ) (M : ℕ → ℕ → ℝ) (p : ℕ × ℕ) : Prop :=
  M p.1 p.2 ≠ 0 ∨ (d p.1 p.2 = 0 ∧ M p.2 p.1 = 0)

/-! ### Supervised contrastive loss (supervised_contrastive_loss, lines 763-806)

Features are embedded as lists of reals; the weight-matrix construction loop
(lines 767-779), the similarity matrix, the row-max shift, the log-softmax and
the positive-pair average are translated step by step.  -/

/-- Euclidean inner product of two feature vectors. -/
def dotR (u v : List ℝ) : ℝ := (List.zipWith (fun x y => x * y) u v).sum

/-- L2 norm of a feature vector. -/
noncomputable def l2norm (v : List ℝ) : ℝ := Real.sqrt (dotR v v)

/-- F.normalize(features, p=2, dim=1) (line 765): divide by max(norm, 1e-12). -/
noncomputable def normalizeF (v : List ℝ) : List ℝ :=
  v.map (fun x => x / max (l2norm v) 1e-12)

/-- Row-major enumeration of all index pairs of an n x n matrix, the iteration
order of the nested loops in lines 771-776. -/
def idxPairs (n : ℕ) : List (ℕ × ℕ) :=
  (List.range n).flatMap (fun i => (List.range n).map (fun j => (i, j)))

/-- The positive-pair mask (lines 792-795): pairs of distinct indices carrying
equal labels, enumerated in row-major order. -/
def posPairs (labels : List ℕ) : List (ℕ × ℕ) :=
  (idxPairs labels.length).filter
    (fun p => (labels.getD p.1 0 == labels.getD p.2 0) && !(p.1 == p.2))

/-- One iteration of the weight-matrix construction loop (lines 771-776): skip
an entry that is already non-zero, otherwise write Gamma at the entry's label
pair to the entry and its mirror. -/
noncomputable def wmStep (g : ℕ → ℕ → ℝ) (lab : List ℕ) (W : ℕ → ℕ → ℝ) (p : ℕ × ℕ) :
    ℕ → ℕ → ℝ :=
  fun a b =>
    if W p.1 p.2 ≠ 0 then W a b
    else if (a = p.1 ∧ b = p.2) ∨ (a = p.2 ∧ b = p.1) then g (lab.getD p.1 0) (lab.getD p.2 0)
    else W a b

/-- The weight matrix of lines 767-782: the loop over all index pairs when a
Gamma is supplied, the all-ones matrix when Gamma is None. -/
noncomputable def weightMatrix : Option (ℕ → ℕ → ℝ) → List ℕ → ℕ → ℕ → ℕ → ℝ
  | none, _, _ => fun _ _ => 1
  | some g, lab, n => (idxPairs n).foldl (wmStep g lab) (fun _ _ => 0)

/-- torch.max over one row of an n-column matrix (line 800). -/
noncomputable def rowMax (f : ℕ → ℝ) (n : ℕ) : ℝ :=
  (List.range n).foldl (fun m j => max m (f j)) (f 0)

/-- Entry (i,j) of the weighted similarity matrix (lines 785-786): inner product
of normalized features over temperature, times the weight matrix. -/
noncomputable def sclSim (features : List (List ℝ)) (labels : List ℕ) (T : ℝ)
    (G : Option (ℕ → ℕ → ℝ)) (i j : ℕ) : ℝ :=
  dotR (normalizeF (features.getD i [])) (normalizeF (features.getD j [])) / T
    * weightMatrix G labels features.length i j

/-- Entry (i,j) of the shifted logits (line 800): similarity minus its row max. -/
noncomputable def sclLogits (features : List (List ℝ)) (labels : List ℕ) (T : ℝ)
    (G : Option (ℕ → ℕ → ℝ)) (i j : ℕ) : ℝ :=
  sclSim features labels T G i j - rowMax (sclSim features labels T G i) features.length

/-- Entry (i,j) of the row-wise log-softmax (line 801). -/
noncomputable def sclLogProb (features : List (List ℝ)) (labels : List ℕ) (T : ℝ)
    (G : Option (ℕ → ℕ → ℝ)) (i j : ℕ) : ℝ :=
  sclLogits features labels T G i j -
    Real.log (((List.range features.length).map
      (fun k => Real.exp (sclLogits features labels T G i k))).sum)

/-- supervised_contrastive_loss (lines 763-806): zero when there is no positive
pair (lines 796-797), otherwise the negated mean log-probability over positive
pairs (line 804). -/
noncomputable def supervised_contrastive_loss (features : List (List ℝ)) (labels : List ℕ)
    (T : ℝ) (G : Option (ℕ → ℕ → ℝ)) : ℝ :=
  if (posPairs labels).length = 0 then 0
  else -(((posPairs labels).map (fun p => sclLogProb features labels T G p.1 p.2)).sum)
    / (posPairs labels).length

/-- No two distinct examples of the batch share a label. -/
def noPosPair (labels : List ℕ) : Prop :=
  ∀ i, i < labels.length → ∀ j, j < labels.length → i ≠ j →
    labels.getD i 0 ≠ labels.getD j 0

instance noPosPair.instDecidable (labels : List ℕ) : Decidable (noPosPair labels) := by
  unfold noPosPair
  infer_instance

/-! ### Taxonomy-scoped loss (subsup_loss, lines 808-828) -/

/-- The fields of args read by subsup_loss, plus the module-level WSDMatrix. -/
structure SubArgs where
  OT_trick : Bool
  delta : ℝ
  nb_classes : ℕ
  WSD : ℕ → ℕ → ℝ

/-- The Gamma computed inside the subset loop (lines 818-821): the inverse
exponential of the distance matrix over delta when OT_trick is set, the
all-ones matrix otherwise. -/
noncomputable def subsup_gamma (args : SubArgs) : ℕ → ℕ → ℝ :=
  if args.OT_trick then fun a b => 1 / Real.exp (args.WSD a b / args.delta)
  else fun _ _ => 1

/-- The rows of the batch whose label falls in the subset (line 814-816,
torch.isin followed by boolean indexing): feature part. -/
def restrictFeatures (features : List (List ℝ)) (labels : List ℕ) (S : List ℕ) :
    List (List ℝ) :=
  ((List.zip features labels).filter (fun fl => S.contains fl.2)).map Prod.fst

/-- The rows of the batch whose label falls in the subset: label part. -/
def restrictLabels (features : List (List ℝ)) (labels : List ℕ) (S : List ℕ) : List ℕ :=
  ((List.zip features labels).filter (fun fl => S.contains fl.2)).map Prod.snd

/-- subsup_loss (lines 808-828): accumulate the per-subset supervised
contrastive loss over subsets whose restricted batch has more than one member
(line 824), then divide by the number of ALL subsets (line 828). -/
noncomputable def subsup_loss (features : List (List ℝ)) (labels : List ℕ)
    (label_sets : List (List ℕ)) (T : ℝ) (args : SubArgs) : ℝ :=
  (label_sets.foldl (fun total S =>
      if 1 < (restrictFeatures features labels S).length then
        total + supervised_contrastive_loss (restrictFeatures features labels S)
          (restrictLabels features labels S) T (some (subsup_gamma args))
      else total) 0) / label_sets.length

/-- Modelled from the spec (section 4.4, taxonomy-scoped variant): the average
of per-subset losses restricted to subsets whose restricted batch is non-empty,
the divisor being the number of those non-empty subsets.  Stated only to be
compared with subsup_loss above. -/
noncomputable def subsup_loss_spec_average (features : List (List ℝ)) (labels : List ℕ)
    (label_sets : List (List ℕ)) (T : ℝ) (args : SubArgs) : ℝ :=
  ((label_sets.filter (fun S => !(restrictFeatures features labels S).isEmpty)).map
      (fun S => supervised_contrastive_loss (restrictFeatures features labels S)
        (restrictLabels features labels S) T (some (subsup_gamma args)))).sum
    / (label_sets.filter (fun S => !(restrictFeatures features labels S).isEmpty)).length

/-! ### Rehearsal sampling (gmm_sample, lines 608-620; calibration sampling,
lines 643-704)

MultivariateNormal(mean, cov).sample((N,)) returns a tensor of shape (N, D)
where D is the dimension of the mean; the random draw is abstracted as the
noise oracle, the shape is kept.  -/

/-- m.sample(sample_shape=(N,)) for a multivariate normal with the given mean
(lines 615-616 and 660-661): N vectors of the mean's dimension. -/
noncomputable def mvnSample (mean : List ℝ) (noise : ℕ → ℕ → ℝ) (N : ℕ) : List (List ℝ) :=
  (List.range N).map (fun k => (List.range mean.length).map (fun d2 => mean.getD d2 0 + noise k d2))

/-- var.mean() for a variance vector (line 613): sum over length. -/
noncomputable def varMean (v : List ℝ) : ℝ := v.sum / v.length

/-- gmm_sample (lines 608-620): for each cluster whose variance vector does not
have zero mean, draw N samples from a normal centred at the cluster mean, and
concatenate across clusters. -/
noncomputable def gmm_sample (means covs : List (List ℝ)) (noise : ℕ → ℕ → ℕ → ℝ) (N : ℕ) :
    List (List ℝ) :=
  (List.range means.length).flatMap (fun c =>
    if varMean (covs.getD c []) = 0 then []
    else mvnSample (means.getD c []) (noise c) N)

/-- The labels accumulated by the covariance/variance branch of one calibration
epoch (lines 654-664): npcls copies of each class id of tasks 0..t. -/
def calib_sampled_labels (class_mask : List (List ℕ)) (t npcls : ℕ) : List ℕ :=
  (List.range (t + 1)).flatMap (fun i =>
    (class_mask.getD i []).flatMap (fun c => List.replicate npcls c))

/-- The data accumulated by the covariance/variance branch of one calibration
epoch (lines 654-663): npcls multivariate-normal draws per class of tasks 0..t. -/
noncomputable def calib_sampled_data (class_mask : List (List ℕ)) (t : ℕ)
    (meanOf : ℕ → List ℝ) (noise : ℕ → ℕ → ℕ → ℝ) (npcls : ℕ) : List (List ℝ) :=
  (List.range (t + 1)).flatMap (fun i =>
    (class_mask.getD i []).flatMap (fun c => mvnSample (meanOf c) (noise c) npcls))

/-- The data accumulated by the multi-centroid branch (lines 670-685): npcls
draws per non-degenerate cluster per class of tasks 0..t. -/
noncomputable def calib_sampled_multi_data (class_mask : List (List ℕ)) (t : ℕ)
    (clustersOf : ℕ → List (List ℝ) × List (List ℝ)) (mnoise : ℕ → ℕ → ℕ → ℕ → ℝ)
    (npcls : ℕ) : List (List ℝ) :=
  (List.range (t + 1)).flatMap (fun i =>
    (class_mask.getD i []).flatMap (fun c =>
      gmm_sample (clustersOf c).1 (clustersOf c).2 (mnoise c) npcls))

/-- The labels accumulated by the multi-centroid branch (lines 670-685). -/
noncomputable def calib_sampled_multi_labels (class_mask : List (List ℕ)) (t : ℕ)
    (clustersOf : ℕ → List (List ℝ) × List (List ℝ)) (npcls : ℕ) : List ℕ :=
  (List.range (t + 1)).flatMap (fun i =>
    (class_mask.getD i []).flatMap (fun c =>
      (List.range (clustersOf c).1.length).flatMap (fun cl =>
        if varMean ((clustersOf c).2.getD cl []) = 0 then [] else List.replicate npcls c)))

/-- The mode dispatch of the calibration sampling step (lines 653-687):
covariance/variance and multi-centroid branches succeed, any other mode raises
NotImplementedError (line 687). -/
noncomputable def calib_sample_epoch (mode : String) (class_mask : List (List ℕ)) (t : ℕ)
    (meanOf : ℕ → List ℝ) (clustersOf : ℕ → List (List ℝ) × List (List ℝ))
    (noise : ℕ → ℕ → ℕ → ℝ) (mnoise : ℕ → ℕ → ℕ → ℕ → ℝ) (npcls : ℕ) :
    Except String (List (List ℝ) × List ℕ) :=
  if mode = "covariance" ∨ mode = "variance" then
    Except.ok (calib_sampled_data class_mask t meanOf noise npcls,
               calib_sampled_labels class_mask t npcls)
  else if mode = "multi-centroid" then
    Except.ok (calib_sampled_multi_data class_mask t clustersOf mnoise npcls,
               calib_sampled_multi_labels class_mask t clustersOf npcls)
  else Except.error "NotImplementedError"

/-! ### Calibration head-retraining loop bookkeeping (lines 622-708) -/

/-- crct_num (lines 635-637): the loop `for i in range(task_id)` sums the class
counts of tasks 0..task_id-1 only. -/
def crct_num (class_mask : List (List ℕ)) (task_id : ℕ) : ℕ :=
  ((List.range task_id).map (fun i => (class_mask.getD i []).length)).sum

/-- The number of classes of tasks 0..t, the per-class unit count of the
synthetic dataset accumulated by the sampling loops (lines 654-685, which run
`for i in range(task_id + 1)`). -/
def seen_class_count (class_mask : List (List ℕ)) (t : ℕ) : ℕ :=
  ((List.range (t + 1)).map (fun i => (class_mask.getD i []).length)).sum

/-- The minibatch slices taken by the retraining loop (lines 706-708):
iteration it processes inputs[it*npcls : (it+1)*npcls]. -/
def epoch_minibatches {α : Type} (inputs : List α) (npcls iters : ℕ) : List (List α) :=
  (List.range iters).map (fun it => (inputs.drop (it * npcls)).take npcls)

/-- All elements processed by the retraining loop in one epoch. -/
def epoch_consumed {α : Type} (inputs : List α) (npcls iters : ℕ) : List α :=
  (epoch_minibatches inputs npcls iters).flatten

/-! ### Module-level rehearsal buffer (old_data / old_labels)

train_and_evaluate declares old_data and old_labels as module globals and binds
them to empty tensors (lines 252-255).  train_task_adaptive_prediction assigns
old_data and old_labels at lines 696-697 WITHOUT a `global` declaration, so
those assignments create function-local names and the module-level buffer is
never modified; the function's effect on the module state is the identity.
cluster_loss (lines 830-845) reads the module-level buffer. -/

/-- The module-level mutable state touched by the rehearsal buffer. -/
structure EngineState where
  oldData : List (List ℝ)
  oldLabels : List ℕ

/-- The state set up at lines 252-255: two empty tensors. -/
def engineInit : EngineState := ⟨[], []⟩

/-- The arguments of one call to train_task_adaptive_prediction that are
relevant to the sampled batch. -/
structure CalibCall where
  class_mask : List (List ℕ)
  task_id : ℕ
  meanOf : ℕ → List ℝ
  noise : ℕ → ℕ → ℕ → ℝ
  npcls : ℕ

/-- train_task_adaptive_prediction's effect on the module-level buffer, paired
with the value its local old_data/old_labels names hold after the last epoch
(lines 643-704): the locals hold the epoch's sampled batch, the module state is
returned unchanged because lines 696-697 bind locals, not the globals. -/
noncomputable def train_task_adaptive_prediction_buffers (c : CalibCall) (st : EngineState) :
    EngineState × (List (List ℝ) × List ℕ) :=
  (st, (calib_sampled_data c.class_mask c.task_id c.meanOf c.noise c.npcls,
        calib_sampled_labels c.class_mask c.task_id c.npcls))

/-- Any sequence of calibration phases applied to the module state. -/
noncomputable def runCalibrations (calls : List CalibCall) (st : EngineState) : EngineState :=
  calls.foldl (fun s c => (train_task_adaptive_prediction_buffers c s).1) st

/-- cluster_loss's batch construction (lines 832-840): permute the buffer with
the randperm oracle, take the first batch_size*5 rows, and concatenate them
onto the current minibatch's features and targets. -/
noncomputable def cluster_loss_batch (st : EngineState) (perm : List ℕ) (bs : ℕ)
    (features : List (List ℝ)) (targets : List ℕ) : List (List ℝ) × List ℕ :=
  (features ++ (perm.map (fun k => st.oldData.getD k [])).take (bs * 5),
   targets ++ (perm.map (fun k => st.oldLabels.getD k 0)).take (bs * 5))

/-! ### Density estimation (_compute_mean, lines 489-537; _compute_mean_org,
lines 438-487)

torch.cov uses the default correction of one, so the sample covariance divides
by n-1; the regularizer torch.eye(cls_mean[cls_id].shape[-1]) * 1e-4 adds 1e-4
on the diagonal up to the dimension of the looked-up mean.  KMeans is
abstracted as the oracle km.  -/

/-- Column d of the feature mean (features_per_cls.mean(dim=0), line 510). -/
noncomputable def featMean (X : List (List ℝ)) (d : ℕ) : ℝ :=
  (∑ k ∈ Finset.range X.length, (X.getD k []).getD d 0) / X.length

/-- A feature entry centred by its column mean. -/
noncomputable def centeredF (X : List (List ℝ)) (k d : ℕ) : ℝ :=
  (X.getD k []).getD d 0 - featMean X d

/-- Entry (d,e) of torch.cov(features_per_cls.T) with the default correction. -/
noncomputable def sampleCov (X : List (List ℝ)) (d e : ℕ) : ℝ :=
  (∑ k ∈ Finset.range X.length, centeredF X k d * centeredF X k e) / ((X.length : ℝ) - 1)

/-- Entry (d,e) of the regularized covariance spread stored in covariance mode
(line 511): sample covariance plus 1e-4 on the diagonal. -/
noncomputable def covSpread (X : List (List ℝ)) (d e : ℕ) : ℝ :=
  sampleCov X d e + if d = e then 1e-4 else 0

/-- Entry d of the diagonal spread stored in variance mode (line 517): the
diagonal extracted after the same regularization. -/
noncomputable def varSpread (X : List (List ℝ)) (d : ℕ) : ℝ := covSpread X d d

/-- The quadratic form of the covariance-mode spread restricted to the leading
D coordinates; a lower bound c * ||v||^2 over all v is the statement that the
minimum eigenvalue of the symmetric spread matrix is at least c. -/
noncomputable def quadForm (X : List (List ℝ)) (D : ℕ) (v : ℕ → ℝ) : ℝ :=
  ∑ d ∈ Finset.range D, ∑ e ∈ Finset.range D, v d * covSpread X d e * v e

/-- The stored mean vector: one entry per feature dimension. -/
noncomputable def meanList (X : List (List ℝ)) : List ℝ :=
  (List.range (X.getD 0 []).length).map (featMean X)

/-- The per-class statistics value stored by the density estimators. -/
inductive ClsStat where
  | single (mean : List ℝ) (spread : ℕ → ℕ → ℝ) : ClsStat
  | diag (mean : List ℝ) (spread : ℕ → ℝ) : ClsStat
  | multi (means : List (List ℝ)) (vars : List (List ℝ)) : ClsStat

/-- The per-class body of _compute_mean (lines 507-535): three independent `if`
branches on the mode string and NO else branch, so an unrecognized mode stores
nothing and raises nothing.  The covariance-mode regularizer is sized by the
mean this very branch just stored (line 511), hence by meanList X itself. -/
noncomputable def compute_mean_cls (mode : String)
    (km : List (List ℝ) → List (List ℝ) × List (List ℝ)) (X : List (List ℝ)) :
    Except String (Option ClsStat) :=
  if mode = "covariance" then
    Except.ok (some (ClsStat.single (meanList X)
      (fun d e => sampleCov X d e + if d = e ∧ d < (meanList X).length then 1e-4 else 0)))
  else if mode = "variance" then
    Except.ok (some (ClsStat.diag (meanList X)
      (fun d => sampleCov X d d + if d < (meanList X).length then 1e-4 else 0)))
  else if mode = "multi-centroid" then
    Except.ok (some (ClsStat.multi (km X).1 (km X).2))
  else Except.ok none

/-- The per-class body of _compute_mean_org (lines 457-485).  In covariance and
variance mode the regularizer torch.eye(cls_mean[cls_id].shape[-1]) reads the
CURRENT-model dictionary cls_mean (lines 461 and 467), modelled as the lookup
clsMeanD cls_id; a missing key is a KeyError.  The multi-centroid branch does
not perform the lookup. -/
noncomputable def compute_mean_org_cls (mode : String) (clsMeanD : ℕ → Option (List ℝ))
    (km : List (List ℝ) → List (List ℝ) × List (List ℝ)) (X : List (List ℝ))
    (cls_id : ℕ) : Except String (Option ClsStat) :=
  if mode = "covariance" then
    match clsMeanD cls_id with
    | none => Except.error "KeyError"
    | some m => Except.ok (some (ClsStat.single (meanList X)
        (fun d e => sampleCov X d e + if d = e ∧ d < m.length then 1e-4 else 0)))
  else if mode = "variance" then
    match clsMeanD cls_id with
    | none => Except.error "KeyError"
    | some m => Except.ok (some (ClsStat.diag (meanList X)
        (fun d => sampleCov X d d + if d < m.length then 1e-4 else 0)))
  else if mode = "multi-centroid" then
    Except.ok (some (ClsStat.multi (km X).1 (km X).2))
  else Except.ok none

/-- The loop `for cls_id in class_mask:` of _compute_mean_org (line 443),
stopping at the first raised exception. -/
noncomputable def compute_mean_org_pass (mode : String) (clsMeanD : ℕ → Option (List ℝ))
    (km : List (List ℝ) → List (List ℝ) × List (List ℝ)) (featOf : ℕ → List (List ℝ)) :
    List ℕ → Except String (List (Option ClsStat))
  | [] => Except.ok []
  | c :: rest =>
    match compute_mean_org_cls mode clsMeanD km (featOf c) c with
    | Except.error e => Except.error e
    | Except.ok s =>
      match compute_mean_org_pass mode clsMeanD km featOf rest with
      | Except.error e => Except.error e
      | Except.ok l => Except.ok (s :: l)

/-- The effect of _compute_mean on the cls_mean dictionary: every class of the
processed class list gets its feature mean stored. -/
noncomputable def compute_mean_update (class_list : List ℕ) (featOf : ℕ → List (List ℝ))
    (st : ℕ → Option (List ℝ)) : ℕ → Option (List ℝ) :=
  fun c => if c ∈ class_list then some (meanList (featOf c)) else st c

/-- The cls_mean dictionary at the moment _compute_mean_org runs for task t.
In train_and_evaluate, _compute_mean_org for task t runs at line 317, before
_compute_mean for task t at line 393; so only tasks 0..t-1 have been stored. -/
noncomputable def clsMeanStateBefore (class_mask : List (List ℕ)) (featOf : ℕ → List (List ℝ))
    (t : ℕ) : ℕ → Option (List ℝ) :=
  (List.range t).foldl (fun st i => compute_mean_update (class_mask.getD i []) featOf st)
    (fun _ => none)

/-! ## Theorems -/

lemma wsdStep_apply (d : ℕ → ℕ → ℝ) (M : ℕ → ℕ → ℝ) (p : ℕ × ℕ) (a b : ℕ) :
    wsdStep d M p a b =
      if M p.1 p.2 ≠ 0 then M a b
      else if (a = p.1 ∧ b = p.2) ∨ (a = p.2 ∧ b = p.1) then d p.1 p.2 else M a b := rfl

lemma foldl_preserve {α β : Type} (f : α → β → α) (P : α → Prop)
    (h : ∀ a b, P a → P (f a b)) :
    ∀ (L : List β) (a : α), P a → P (L.foldl f a) := by
  intro L
  induction L with
  | nil => intro a ha; exact ha
  | cons b L ih => intro a ha; exact ih (f a b) (h a b ha)

lemma wsdStep_symm (d : ℕ → ℕ → ℝ) (M : ℕ → ℕ → ℝ) (p : ℕ × ℕ)
    (hM : SymmM M) : SymmM (wsdStep d M p) := by
  intro i j
  rw [wsdStep_apply, wsdStep_apply]
  by_cases h : M p.1 p.2 ≠ 0
  · rw [if_pos h, if_pos h]; exact hM i j
  · rw [if_neg h, if_neg h]
    by_cases hc : (i = p.1 ∧ j = p.2) ∨ (i = p.2 ∧ j = p.1)
    · have hc2 : (j = p.1 ∧ i = p.2) ∨ (j = p.2 ∧ i = p.1) := by tauto
      rw [if_pos hc, if_pos hc2]
    · have hc2 : ¬ ((j = p.1 ∧ i = p.2) ∨ (j = p.2 ∧ i = p.1)) := by tauto
      rw [if_neg hc, if_neg hc2]; exact hM i j

lemma update_WSM_symm (d : ℕ → ℕ → ℝ) (ids : List ℕ) (M : ℕ → ℕ → ℝ)
    (hM : SymmM M) : SymmM (update_WSM d ids M) :=
  foldl_preserve (wsdStep d) SymmM (fun a b ha => wsdStep_symm d a b ha) (classPairs ids) M hM

lemma wsdStep_id_of_fixed (d : ℕ → ℕ → ℝ) (M : ℕ → ℕ → ℝ) (p : ℕ × ℕ)
    (h : FixedAt d M p) : wsdStep d M p = M := by
  funext a b
  rw [wsdStep_apply]
  by_cases hnz : M p.1 p.2 ≠ 0
  · rw [if_pos hnz]
  · rw [if_neg hnz]
    push_neg at hnz
    rcases h with h | ⟨hd, hm⟩
    · exact absurd hnz h
    · by_cases hc : (a = p.1 ∧ b = p.2) ∨ (a = p.2 ∧ b = p.1)
      · rw [if_pos hc, hd]
        rcases hc with ⟨ha, hb⟩ | ⟨ha, hb⟩
        · rw [ha, hb, hnz]
        · rw [ha, hb, hm]
      · rw [if_neg hc]

lemma wsdStep_establishes_fixed (d : ℕ → ℕ → ℝ) (M : ℕ → ℕ → ℝ) (p : ℕ × ℕ) :
    FixedAt d (wsdStep d M p) p := by
  unfold FixedAt
  rw [wsdStep_apply, wsdStep_apply]
  by_cases hnz : M p.1 p.2 ≠ 0
  · rw [if_pos hnz, if_pos hnz]; exact Or.inl hnz
  · rw [if_neg hnz, if_neg hnz]
    have hc1 : (p.1 = p.1 ∧ p.2 = p.2) ∨ (p.1 = p.2 ∧ p.2 = p.1) := Or.inl ⟨rfl, rfl⟩
    have hc2 : (p.2 = p.1 ∧ p.1 = p.2) ∨ (p.2 = p.2 ∧ p.1 = p.1) := Or.inr ⟨rfl, rfl⟩
    rw [if_pos hc1, if_pos hc2]
    by_cases hd : d p.1 p.2 = 0
    · exact Or.inr ⟨hd, hd⟩
    · exact Or.inl hd

lemma wsdStep_preserves_fixed (d : ℕ → ℕ → ℝ) (M : ℕ → ℕ → ℝ) (p q : ℕ × ℕ)
    (hsym : SymmM M) (hq : FixedAt d M q) : FixedAt d (wsdStep d M p) q := by
  unfold FixedAt at hq ⊢
  rw [wsdStep_apply, wsdStep_apply]
  by_cases hnz : M p.1 p.2 ≠ 0
  · rw [if_pos hnz, if_pos hnz]; exact hq
  · rw [if_neg hnz, if_neg hnz]
    push_neg at hnz
    by_cases hc : (q.1 = p.1 ∧ q.2 = p.2) ∨ (q.1 = p.2 ∧ q.2 = p.1)
    · have hc2 : (q.2 = p.1 ∧ q.1 = p.2) ∨ (q.2 = p.2 ∧ q.1 = p.1) := by tauto
      rw [if_pos hc, if_pos hc2]
      by_cases hdp : d p.1 p.2 = 0
      · refine Or.inr ⟨?_, hdp⟩
        rcases hc with ⟨h1, h2⟩ | ⟨h1, h2⟩
        · rw [h1, h2]; exact hdp
        · rcases hq with h | ⟨hd, _⟩
          · exact absurd (by rw [h1, h2]; exact (hsym p.2 p.1).trans hnz) h
          · exact hd
      · exact Or.inl hdp
    · have hc2 : ¬ ((q.2 = p.1 ∧ q.1 = p.2) ∨ (q.2 = p.2 ∧ q.1 = p.1)) := by tauto
      rw [if_neg hc, if_neg hc2]
      exact hq

lemma update_WSM_all_fixed (d : ℕ → ℕ → ℝ) (ids : List ℕ) (M : ℕ → ℕ → ℝ)
    (hM : SymmM M) : ∀ q ∈ classPairs ids, FixedAt d (update_WSM d ids M) q := by
  unfold update_WSM
  suffices h : ∀ (L : List (ℕ × ℕ)) (M : ℕ → ℕ → ℝ), SymmM M →
      ∀ q ∈ L, FixedAt d (L.foldl (wsdStep d) M) q by
    exact h (classPairs ids) M hM
  intro L
  induction L with
  | nil => intro M _ q hq; exact absurd hq (List.not_mem_nil q)
  | cons p L ih =>
    intro M hMsym q hq
    have hsym1 : SymmM (wsdStep d M p) := wsdStep_symm d M p hMsym
    rcases List.mem_cons.mp hq with rfl | hqL
    · have hfix : FixedAt d (wsdStep d M q) q := wsdStep_establishes_fixed d M q
      have hkeep : ∀ (L : List (ℕ × ℕ)) (N : ℕ → ℕ → ℝ), SymmM N → FixedAt d N q →
          FixedAt d (L.foldl (wsdStep d) N) q := by
        intro L
        induction L with
        | nil => intro N _ h; exact h
        | cons r L ihL =>
          intro N hNsym hN
          exact ihL (wsdStep d N r) (wsdStep_symm d N r hNsym)
            (wsdStep_preserves_fixed d N r q hNsym hN)
      exact hkeep L (wsdStep d M q) hsym1 hfix
    · exact ih (wsdStep d M p) hsym1 q hqL

lemma foldl_wsdStep_id (d : ℕ → ℕ → ℝ) (M : ℕ → ℕ → ℝ) (L : List (ℕ × ℕ))
    (h : ∀ q ∈ L, FixedAt d M q) : L.foldl (wsdStep d) M = M := by
  induction L with
  | nil => rfl
  | cons p L ih =>
    have hfix : wsdStep d M p = M := wsdStep_id_of_fixed d M p (h p (List.mem_cons_self p L))
    rw [List.foldl_cons, hfix]
    exact ih (fun q hq => h q (List.mem_cons_of_mem p hq))

/-- C4: starting from the all-zero matrix, every fill step that writes entry
(i,j) also writes the identical value to (j,i), so after any sequence of fill
invocations of update_WSM / update_WSM_eval, the stored distance matrix is
exactly symmetric: distance(i,j) equals distance(j,i) for all class pairs. -/
theorem wsd_matrix_always_symmetric (invs : List ((ℕ → ℕ → ℝ) × List ℕ)) (i j : ℕ) :
    runFills invs i j = runFills invs j i := by
  have h : SymmM (runFills invs) := by
    unfold runFills
    exact foldl_preserve _ SymmM
      (fun M inv hM => update_WSM_symm inv.1 inv.2 M hM) invs zeroWSM (fun _ _ => rfl)
  exact h i j

/-- C5: the distance-matrix fill step is idempotent.  On any symmetric matrix
(in particular any matrix reachable from the all-zero initial matrix), invoking
update_WSM a second time with the same class set and the same computed distances
leaves every entry identical: entries that are non-zero are skipped, and
zero-sentinel entries are rewritten with the same value. -/
theorem wsd_fill_idempotent (d : ℕ → ℕ → ℝ) (ids : List ℕ) (M : ℕ → ℕ → ℝ)
    (hM : SymmM M) :
    update_WSM d ids (update_WSM d ids M) = update_WSM d ids M := by
  have hfix := update_WSM_all_fixed d ids M hM
  exact foldl_wsdStep_id d _ (classPairs ids) hfix

/-- Witness for C5 at a concrete input: the all-zero matrix is symmetric, and a
double fill over classes {0, 1} equals a single fill. -/
theorem wsd_fill_idempotent_witness :
    SymmM zeroWSM ∧
    update_WSM (fun i j => (i : ℝ) + j) [0, 1] (update_WSM (fun i j => (i : ℝ) + j) [0, 1] zeroWSM)
      = update_WSM (fun i j => (i : ℝ) + j) [0, 1] zeroWSM :=
  ⟨fun _ _ => rfl, wsd_fill_idempotent (fun i j => (i : ℝ) + j) [0, 1] zeroWSM (fun _ _ => rfl)⟩

lemma mem_idxPairs {n : ℕ} {p : ℕ × ℕ} : p ∈ idxPairs n ↔ p.1 < n ∧ p.2 < n := by
  obtain ⟨i, j⟩ := p
  unfold idxPairs
  simp only [List.mem_flatMap, List.mem_map, List.mem_range, Prod.mk.injEq]
  constructor
  · rintro ⟨a, ha, b, hb, rfl, rfl⟩
    exact ⟨ha, hb⟩
  · rintro ⟨hi, hj⟩
    exact ⟨i, hi, j, hj, rfl, rfl⟩

lemma posPairs_mem {labels : List ℕ} {p : ℕ × ℕ} (hp : p ∈ posPairs labels) :
    p.1 < labels.length ∧ p.2 < labels.length :=
  mem_idxPairs.mp (List.mem_of_mem_filter hp)

lemma posPairs_eq_nil {labels : List ℕ} (h : noPosPair labels) : posPairs labels = [] := by
  unfold posPairs
  rw [List.filter_eq_nil_iff]
  rintro ⟨i, j⟩ hp
  obtain ⟨hi, hj⟩ := mem_idxPairs.mp hp
  simp only [Bool.and_eq_true, beq_iff_eq, Bool.not_eq_eq_eq_not, Bool.not_true, beq_eq_false_iff_ne,
    ne_eq, not_and]
  intro heq hne
  exact absurd heq (h i hi j hj hne)

lemma list_sum_nonpos {l : List ℝ} (h : ∀ x ∈ l, x ≤ 0) : l.sum ≤ 0 := by
  induction l with
  | nil => simp
  | cons x xs ih =>
    simp only [List.sum_cons]
    have hx := h x (List.mem_cons_self x xs)
    have hxs := ih (fun y hy => h y (List.mem_cons_of_mem x hy))
    linarith

lemma sclLogProb_nonpos (features : List (List ℝ)) (labels : List ℕ) (T : ℝ)
    (G : Option (ℕ → ℕ → ℝ)) (i j : ℕ) (hj : j < features.length) :
    sclLogProb features labels T G i j ≤ 0 := by
  unfold sclLogProb
  set L := (List.range features.length).map
    (fun k => Real.exp (sclLogits features labels T G i k)) with hL
  have hmem : Real.exp (sclLogits features labels T G i j) ∈ L := by
    rw [hL]
    exact List.mem_map_of_mem _ (List.mem_range.mpr hj)
  have hpos : ∀ x ∈ L, (0:ℝ) ≤ x := by
    rw [hL]
    intro x hx
    rcases List.mem_map.mp hx with ⟨k, _, rfl⟩
    exact le_of_lt (Real.exp_pos _)
  have hle : Real.exp (sclLogits features labels T G i j) ≤ L.sum :=
    List.single_le_sum hpos _ hmem
  have hlog : sclLogits features labels T G i j ≤ Real.log L.sum := by
    have := Real.log_le_log (Real.exp_pos _) hle
    rwa [Real.log_exp] at this
  linarith

/-- C6: the supervised contrastive loss, with or without a weight matrix Gamma,
is a non-negative scalar for every batch of features with matching labels, and
it is exactly zero whenever no two distinct examples of the batch share a
label (no positive pair). -/
theorem scl_nonneg_and_zero_without_positives (features : List (List ℝ)) (labels : List ℕ)
    (T : ℝ) (G : Option (ℕ → ℕ → ℝ)) (hlen : features.length = labels.length) :
    0 ≤ supervised_contrastive_loss features labels T G ∧
      (noPosPair labels → supervised_contrastive_loss features labels T G = 0) := by
  constructor
  · unfold supervised_contrastive_loss
    by_cases h0 : (posPairs labels).length = 0
    · rw [if_pos h0]
    · rw [if_neg h0]
      apply div_nonneg
      · rw [neg_nonneg]
        apply list_sum_nonpos
        intro x hx
        rcases List.mem_map.mp hx with ⟨p, hp, rfl⟩
        have hj : p.2 < features.length := by
          rw [hlen]; exact (posPairs_mem hp).2
        exact sclLogProb_nonpos features labels T G p.1 p.2 hj
      · exact Nat.cast_nonneg _
  · intro hnp
    unfold supervised_contrastive_loss
    rw [posPairs_eq_nil hnp]
    simp

/-- Witness for C6 at a concrete input: a 2-example batch with distinct labels
has a matching feature count, no positive pair, and loss exactly zero. -/
theorem scl_nonneg_and_zero_without_positives_witness :
    0 ≤ supervised_contrastive_loss [[(1:ℝ), 0], [0, 1]] [0, 1] (1/10) none ∧
      supervised_contrastive_loss [[(1:ℝ), 0], [0, 1]] [0, 1] (1/10) none = 0 := by
  have h := scl_nonneg_and_zero_without_positives [[(1:ℝ), 0], [0, 1]] [0, 1] (1/10) none rfl
  exact ⟨h.1, h.2 (by decide)⟩

lemma mvnSample_length (mean : List ℝ) (noise : ℕ → ℕ → ℝ) (N : ℕ) :
    (mvnSample mean noise N).length = N := by
  unfold mvnSample
  rw [List.length_map, List.length_range]

lemma mvnSample_dim (mean : List ℝ) (noise : ℕ → ℕ → ℝ) (N : ℕ) :
    ∀ v ∈ mvnSample mean noise N, v.length = mean.length := by
  intro v hv
  rcases List.mem_map.mp hv with ⟨k, _, rfl⟩
  rw [List.length_map, List.length_range]

lemma gmm_sample_length (means covs : List (List ℝ)) (noise : ℕ → ℕ → ℕ → ℝ) (N : ℕ)
    (hvar : ∀ c, c < means.length → varMean (covs.getD c []) ≠ 0) :
    (gmm_sample means covs noise N).length = means.length * N := by
  unfold gmm_sample
  rw [List.length_flatMap]
  simp only [Function.comp_def]
  have hmap : (List.range means.length).map
      (fun c => (if varMean (covs.getD c []) = 0 then []
        else mvnSample (means.getD c []) (noise c) N).length)
      = List.replicate means.length N := by
    rw [List.eq_replicate_iff]
    refine ⟨by rw [List.length_map, List.length_range], ?_⟩
    intro b hb
    rcases List.mem_map.mp hb with ⟨c, hc, rfl⟩
    rw [if_neg (hvar c (List.mem_range.mp hc)), mvnSample_length]
  rw [hmap, List.sum_replicate, smul_eq_mul]

lemma gmm_sample_dim (means covs : List (List ℝ)) (noise : ℕ → ℕ → ℕ → ℝ) (N D : ℕ)
    (hD : ∀ c, c < means.length → (means.getD c []).length = D) :
    ∀ v ∈ gmm_sample means covs noise N, v.length = D := by
  intro v hv
  unfold gmm_sample at hv
  rcases List.mem_flatMap.mp hv with ⟨c, hc, hvc⟩
  by_cases hz : varMean (covs.getD c []) = 0
  · rw [if_pos hz] at hvc
    exact absurd hvc (List.not_mem_nil v)
  · rw [if_neg hz] at hvc
    rw [mvnSample_dim _ _ _ v hvc]
    exact hD c (List.mem_range.mp hc)

/-- C7: sampling shapes.  A single-Gaussian draw of N samples returns exactly N
vectors of the mean's dimension D (lines 660-661); gmm_sample over a K-centroid
mixture in which every centroid's variance vector has non-zero mean returns
exactly K*N vectors of dimension D, N per centroid concatenated across
centroids (lines 608-620). -/
theorem rehearsal_sampler_shapes (mean : List ℝ) (noise1 : ℕ → ℕ → ℝ) (N : ℕ)
    (means covs : List (List ℝ)) (noise : ℕ → ℕ → ℕ → ℝ) (D : ℕ)
    (hvar : ∀ c, c < means.length → varMean (covs.getD c []) ≠ 0)
    (hD : ∀ c, c < means.length → (means.getD c []).length = D) :
    ((mvnSample mean noise1 N).length = N ∧
      ∀ v ∈ mvnSample mean noise1 N, v.length = mean.length) ∧
    ((gmm_sample means covs noise N).length = means.length * N ∧
      ∀ v ∈ gmm_sample means covs noise N, v.length = D) :=
  ⟨⟨mvnSample_length mean noise1 N, mvnSample_dim mean noise1 N⟩,
   ⟨gmm_sample_length means covs noise N hvar, gmm_sample_dim means covs noise N D hD⟩⟩

/-- Witness for C7 at a concrete input: a 3-dimensional single Gaussian with
N = 4, and a 2-centroid 1-dimensional mixture with non-degenerate variances. -/
theorem rehearsal_sampler_shapes_witness :
    ((mvnSample [(0:ℝ), 0, 0] (fun _ _ => 0) 4).length = 4 ∧
      ∀ v ∈ mvnSample [(0:ℝ), 0, 0] (fun _ _ => 0) 4, v.length = [(0:ℝ), 0, 0].length) ∧
    ((gmm_sample [[(0:ℝ)], [1]] [[(1:ℝ)], [2]] (fun _ _ _ => 0) 4).length
        = [[(0:ℝ)], [1]].length * 4 ∧
      ∀ v ∈ gmm_sample [[(0:ℝ)], [1]] [[(1:ℝ)], [2]] (fun _ _ _ => 0) 4, v.length = 1) := by
  refine rehearsal_sampler_shapes [(0:ℝ), 0, 0] (fun _ _ => 0) 4
    [[(0:ℝ)], [1]] [[(1:ℝ)], [2]] (fun _ _ _ => 0) 1 ?_ ?_
  · intro c hc
    have hc2 : c < 2 := hc
    clear hc
    interval_cases c
    · show varMean [(1:ℝ)] ≠ 0
      unfold varMean
      norm_num
    · show varMean [(2:ℝ)] ≠ 0
      unfold varMean
      norm_num
  · intro c hc
    have hc2 : c < 2 := hc
    clear hc
    interval_cases c
    · rfl
    · rfl

lemma sum_quad_sq (n D : ℕ) (A : ℕ → ℕ → ℝ) (v : ℕ → ℝ) :
    ∑ d ∈ Finset.range D, ∑ e ∈ Finset.range D,
        v d * (∑ k ∈ Finset.range n, A k d * A k e) * v e
      = ∑ k ∈ Finset.range n, (∑ d ∈ Finset.range D, v d * A k d) ^ 2 := by
  calc
    ∑ d ∈ Finset.range D, ∑ e ∈ Finset.range D,
        v d * (∑ k ∈ Finset.range n, A k d * A k e) * v e
      = ∑ d ∈ Finset.range D, ∑ e ∈ Finset.range D, ∑ k ∈ Finset.range n,
          (v d * A k d) * (A k e * v e) := by
        refine Finset.sum_congr rfl (fun d _ => Finset.sum_congr rfl (fun e _ => ?_))
        rw [Finset.mul_sum, Finset.sum_mul]
        exact Finset.sum_congr rfl (fun k _ => by ring)
    _ = ∑ d ∈ Finset.range D, ∑ k ∈ Finset.range n, ∑ e ∈ Finset.range D,
          (v d * A k d) * (A k e * v e) := by
        exact Finset.sum_congr rfl (fun d _ => Finset.sum_comm)
    _ = ∑ k ∈ Finset.range n, ∑ d ∈ Finset.range D, ∑ e ∈ Finset.range D,
          (v d * A k d) * (A k e * v e) := by
        exact Finset.sum_comm
    _ = ∑ k ∈ Finset.range n, (∑ d ∈ Finset.range D, v d * A k d) ^ 2 := by
        refine Finset.sum_congr rfl (fun k _ => ?_)
        rw [sq, Finset.sum_mul]
        refine Finset.sum_congr rfl (fun d _ => ?_)
        rw [Finset.mul_sum]
        exact Finset.sum_congr rfl (fun e _ => by ring)

lemma quadForm_decomp (X : List (List ℝ)) (D : ℕ) (v : ℕ → ℝ) :
    quadForm X D v =
      (∑ k ∈ Finset.range X.length, (∑ d ∈ Finset.range D, v d * centeredF X k d) ^ 2)
        / ((X.length : ℝ) - 1)
      + 1e-4 * ∑ d ∈ Finset.range D, v d ^ 2 := by
  unfold quadForm covSpread sampleCov
  calc
    ∑ d ∈ Finset.range D, ∑ e ∈ Finset.range D,
        v d * ((∑ k ∈ Finset.range X.length, centeredF X k d * centeredF X k e)
          / ((X.length : ℝ) - 1) + if d = e then 1e-4 else 0) * v e
      = ∑ d ∈ Finset.range D, ∑ e ∈ Finset.range D,
          ((v d * (∑ k ∈ Finset.range X.length, centeredF X k d * centeredF X k e) * v e)
              / ((X.length : ℝ) - 1)
            + v d * (if d = e then 1e-4 else 0) * v e) := by
        refine Finset.sum_congr rfl (fun d _ => Finset.sum_congr rfl (fun e _ => by ring))
    _ = (∑ d ∈ Finset.range D, ∑ e ∈ Finset.range D,
          (v d * (∑ k ∈ Finset.range X.length, centeredF X k d * centeredF X k e) * v e))
            / ((X.length : ℝ) - 1)
        + ∑ d ∈ Finset.range D, ∑ e ∈ Finset.range D,
            v d * (if d = e then 1e-4 else 0) * v e := by
        have hinner : ∀ d ∈ Finset.range D,
            ∑ e ∈ Finset.range D,
              ((v d * (∑ k ∈ Finset.range X.length, centeredF X k d * centeredF X k e) * v e)
                  / ((X.length : ℝ) - 1)
                + v d * (if d = e then 1e-4 else 0) * v e)
            = (∑ e ∈ Finset.range D,
                v d * (∑ k ∈ Finset.range X.length, centeredF X k d * centeredF X k e) * v e)
                  / ((X.length : ℝ) - 1)
              + ∑ e ∈ Finset.range D, v d * (if d = e then 1e-4 else 0) * v e := by
          intro d _
          rw [Finset.sum_add_distrib, ← Finset.sum_div]
        rw [Finset.sum_congr rfl hinner, Finset.sum_add_distrib, ← Finset.sum_div]
    _ = (∑ k ∈ Finset.range X.length, (∑ d ∈ Finset.range D, v d * centeredF X k d) ^ 2)
          / ((X.length : ℝ) - 1)
        + 1e-4 * ∑ d ∈ Finset.range D, v d ^ 2 := by
        rw [sum_quad_sq]
        congr 1
        rw [Finset.mul_sum]
        refine Finset.sum_congr rfl (fun d hd => ?_)
        rw [Finset.sum_eq_single d]
        · rw [if_pos rfl]; ring
        · intro e _ hne
          rw [if_neg (fun h => hne h.symm)]
          ring
        · intro hd2
          exact absurd hd hd2

/-- C8: regularization floor.  With at least two samples per class, the
covariance-mode spread (sample covariance plus 1e-4 on the diagonal, line 511)
has quadratic form at least 1e-4 times the squared norm of any vector - that
is, minimum eigenvalue at least 1e-4 - and every entry of the variance-mode
diagonal spread (the diagonal extracted after the same regularization,
line 517) is at least 1e-4. -/
theorem spread_regularization_floor (X : List (List ℝ)) (D : ℕ) (v : ℕ → ℝ) (d : ℕ)
    (hn : 2 ≤ X.length) :
    1e-4 * (∑ e ∈ Finset.range D, v e ^ 2) ≤ quadForm X D v ∧
      (1e-4 : ℝ) ≤ varSpread X d := by
  have hpos : (0:ℝ) < (X.length : ℝ) - 1 := by
    have h2 : (2:ℝ) ≤ (X.length : ℝ) := by exact_mod_cast hn
    linarith
  constructor
  · rw [quadForm_decomp]
    have hsq : (0:ℝ) ≤
        (∑ k ∈ Finset.range X.length, (∑ d2 ∈ Finset.range D, v d2 * centeredF X k d2) ^ 2)
          / ((X.length : ℝ) - 1) :=
      div_nonneg (Finset.sum_nonneg (fun k _ => sq_nonneg _)) (le_of_lt hpos)
    linarith
  · unfold varSpread covSpread sampleCov
    rw [if_pos rfl]
    have hsq : (0:ℝ) ≤
        (∑ k ∈ Finset.range X.length, centeredF X k d * centeredF X k d)
          / ((X.length : ℝ) - 1) :=
      div_nonneg (Finset.sum_nonneg (fun k _ => mul_self_nonneg _)) (le_of_lt hpos)
    linarith

/-- Witness for C8 at a concrete input: a class with two one-dimensional
samples meets the two-sample hypothesis, and both floor bounds hold there. -/
theorem spread_regularization_floor_witness :
    1e-4 * (∑ e ∈ Finset.range 1, (fun _ : ℕ => (1:ℝ)) e ^ 2)
        ≤ quadForm [[(0:ℝ)], [1]] 1 (fun _ => 1) ∧
      (1e-4 : ℝ) ≤ varSpread [[(0:ℝ)], [1]] 0 :=
  spread_regularization_floor [[(0:ℝ)], [1]] 1 (fun _ => 1) 0 (by decide)

lemma epoch_consumed_succ {α : Type} (inputs : List α) (npcls n : ℕ) :
    epoch_consumed inputs npcls (n + 1)
      = epoch_consumed inputs npcls n ++ (inputs.drop (n * npcls)).take npcls := by
  unfold epoch_consumed epoch_minibatches
  rw [List.range_succ, List.map_append, List.flatten_append]
  simp

lemma epoch_consumed_length {α : Type} (inputs : List α) (npcls iters : ℕ)
    (h : iters * npcls ≤ inputs.length) :
    (epoch_consumed inputs npcls iters).length = iters * npcls := by
  induction iters with
  | zero => simp [epoch_consumed, epoch_minibatches]
  | succ n ih =>
    have heq : (n + 1) * npcls = n * npcls + npcls := by ring
    have hle : n * npcls ≤ inputs.length := by omega
    rw [epoch_consumed_succ, List.length_append, ih hle, List.length_take, List.length_drop]
    omega

/-- Counterexample for C3 at a concrete input: with one class per task,
task_id = 1 and batch_size*5 = 5, the epoch samples 2 classes' worth of data
(10 labels) but crct_num sums `range(task_id)` only (lines 636-637), so the
retraining loop runs one minibatch instead of two and consumes 5 of the 10
sampled elements: the dataset is not fully consumed and the loop does not run
one minibatch per class seen through task t. -/
theorem calibration_epoch_not_fully_consumed :
    crct_num [[0], [1]] 1 ≠ seen_class_count [[0], [1]] 1 ∧
    (epoch_consumed (calib_sampled_labels [[0], [1]] 1 5) 5 (crct_num [[0], [1]] 1)).length ≠
      (calib_sampled_labels [[0], [1]] 1 5).length := by
  decide

/-- C3 amended: in covariance/variance mode each calibration epoch accumulates
batch_size*5 samples per class of tasks 0..t, but the head-retraining loop
executes one minibatch per class of tasks 0..t-1 only (crct_num, lines
636-637), consuming crct_num * batch_size*5 elements of the shuffled dataset
and leaving the final task's share - |class_mask[t]| * batch_size*5 sampled
elements - unprocessed that epoch. -/
theorem calibration_epoch_partial_consumption {α : Type} (class_mask : List (List ℕ))
    (t npcls : ℕ) (inputs : List α)
    (hlen : inputs.length = seen_class_count class_mask t * npcls) :
    (epoch_consumed inputs npcls (crct_num class_mask t)).length
        = crct_num class_mask t * npcls ∧
      inputs.length - (epoch_consumed inputs npcls (crct_num class_mask t)).length
        = (class_mask.getD t []).length * npcls := by
  have hcr : crct_num class_mask t + (class_mask.getD t []).length
      = seen_class_count class_mask t := by
    unfold crct_num seen_class_count
    rw [List.range_succ, List.map_append, List.sum_append]
    simp
  have hle : crct_num class_mask t * npcls ≤ inputs.length := by
    rw [hlen]
    exact Nat.mul_le_mul_right _ (by omega)
  have hcons := epoch_consumed_length inputs npcls (crct_num class_mask t) hle
  refine ⟨hcons, ?_⟩
  rw [hcons, hlen, ← hcr, Nat.add_mul, Nat.add_sub_cancel_left]

/-- Witness for C3's amended statement at a concrete input: 10 sampled elements
for 2 seen classes with batch_size*5 = 5; the loop consumes 5 elements and
leaves 5 = |class_mask[1]| * 5 unprocessed. -/
theorem calibration_epoch_partial_consumption_witness :
    (List.range 10).length = seen_class_count [[0], [1]] 1 * 5 ∧
    ((epoch_consumed (List.range 10) 5 (crct_num [[0], [1]] 1)).length
        = crct_num [[0], [1]] 1 * 5 ∧
      (List.range 10).length - (epoch_consumed (List.range 10) 5 (crct_num [[0], [1]] 1)).length
        = ([[0], [1]].getD 1 []).length * 5) :=
  ⟨by decide, calibration_epoch_partial_consumption [[0], [1]] 1 5 (List.range 10) (by decide)⟩

/-- Counterexample for C9 at a concrete input: on the unrecognized mode
"gaussian" the per-class density-estimation step of _compute_mean does NOT
signal a configuration error - all three `if` branches fall through (lines
507-535 have no else) and the step completes, storing nothing. -/
theorem compute_mean_silent_on_unknown_mode :
    compute_mean_cls "gaussian" (fun _ => ([], [])) [] = Except.ok none := by
  unfold compute_mean_cls
  rw [if_neg (by decide), if_neg (by decide), if_neg (by decide)]

/-- C9 amended: on a distribution-storage mode outside covariance, variance and
multi-centroid, the classifier-calibration sampling step raises
NotImplementedError (line 687), but the per-class density-estimation step
silently falls through its three `if` branches and stores nothing, raising no
error. -/
theorem unknown_mode_dispatch (mode : String)
    (km : List (List ℝ) → List (List ℝ) × List (List ℝ)) (X : List (List ℝ))
    (class_mask : List (List ℕ)) (t : ℕ) (meanOf : ℕ → List ℝ)
    (clustersOf : ℕ → List (List ℝ) × List (List ℝ)) (noise : ℕ → ℕ → ℕ → ℝ)
    (mnoise : ℕ → ℕ → ℕ → ℕ → ℝ) (npcls : ℕ)
    (h1 : mode ≠ "covariance") (h2 : mode ≠ "variance") (h3 : mode ≠ "multi-centroid") :
    compute_mean_cls mode km X = Except.ok none ∧
      calib_sample_epoch mode class_mask t meanOf clustersOf noise mnoise npcls
        = Except.error "NotImplementedError" := by
  constructor
  · unfold compute_mean_cls
    rw [if_neg h1, if_neg h2, if_neg h3]
  · unfold calib_sample_epoch
    have hor : ¬ (mode = "covariance" ∨ mode = "variance") := by
      rintro (h | h)
      · exact h1 h
      · exact h2 h
    rw [if_neg hor, if_neg h3]

/-- Witness for C9's amended statement at the concrete mode "gaussian". -/
theorem unknown_mode_dispatch_witness :
    compute_mean_cls "gaussian" (fun _ => ([], [])) [[(0:ℝ)]] = Except.ok none ∧
      calib_sample_epoch "gaussian" [[0]] 0 (fun _ => []) (fun _ => ([], []))
        (fun _ _ _ => 0) (fun _ _ _ _ => 0) 5 = Except.error "NotImplementedError" :=
  unknown_mode_dispatch "gaussian" (fun _ => ([], [])) [[(0:ℝ)]] [[0]] 0 (fun _ => [])
    (fun _ => ([], [])) (fun _ _ _ => 0) (fun _ _ _ _ => 0) 5
    (by decide) (by decide) (by decide)

lemma clsMeanStateBefore_none (class_mask : List (List ℕ)) (featOf : ℕ → List (List ℝ))
    (t c : ℕ) (h : ∀ i, i < t → c ∉ class_mask.getD i []) :
    clsMeanStateBefore class_mask featOf t c = none := by
  induction t with
  | zero => rfl
  | succ n ih =>
    unfold clsMeanStateBefore at ih ⊢
    rw [List.range_succ, List.foldl_append]
    simp only [List.foldl_cons, List.foldl_nil]
    unfold compute_mean_update
    rw [if_neg (h n (Nat.lt_succ_self n))]
    exact ih (fun i hi => h i (Nat.lt_succ_of_lt hi))

/-- C10: in covariance and variance mode, _compute_mean_org sizes its 1e-4
regularizer from the CURRENT-model dictionary cls_mean[cls_id] (lines 461,
467); since _compute_mean_org for task t's classes runs (line 317) before
_compute_mean stores those classes (line 393), the lookup misses for every
newly introduced class, so the per-class step raises KeyError for each new
class and the whole original-backbone density-estimation pass over task t's
class list fails. -/
theorem org_density_estimation_keyerror (mode : String) (class_mask : List (List ℕ))
    (featOf : ℕ → List (List ℝ)) (km : List (List ℝ) → List (List ℝ) × List (List ℝ))
    (t : ℕ)
    (hmode : mode = "covariance" ∨ mode = "variance")
    (hdisj : ∀ c ∈ class_mask.getD t [], ∀ i, i < t → c ∉ class_mask.getD i []) :
    (∀ c ∈ class_mask.getD t [],
        compute_mean_org_cls mode (clsMeanStateBefore class_mask featOf t) km (featOf c) c
          = Except.error "KeyError") ∧
      (class_mask.getD t [] ≠ [] →
        compute_mean_org_pass mode (clsMeanStateBefore class_mask featOf t) km featOf
          (class_mask.getD t []) = Except.error "KeyError") := by
  have hcls : ∀ c ∈ class_mask.getD t [],
      compute_mean_org_cls mode (clsMeanStateBefore class_mask featOf t) km (featOf c) c
        = Except.error "KeyError" := by
    intro c hc
    have hnone := clsMeanStateBefore_none class_mask featOf t c (hdisj c hc)
    rcases hmode with rfl | rfl
    · unfold compute_mean_org_cls
      rw [if_pos rfl, hnone]
    · unfold compute_mean_org_cls
      rw [if_neg (by decide), if_pos rfl, hnone]
  refine ⟨hcls, ?_⟩
  intro hne
  rcases hmask : class_mask.getD t [] with _ | ⟨c, rest⟩
  · exact absurd hmask hne
  · unfold compute_mean_org_pass
    rw [hcls c (by rw [hmask]; exact List.mem_cons_self c rest)]

/-- Witness for C10 at a concrete input: two tasks with one class each; at
task 1, class 1 is new, so the covariance-mode original-backbone step raises
KeyError for it and the pass over task 1's class list fails. -/
theorem org_density_estimation_keyerror_witness :
    (∀ c ∈ [[0], [1]].getD 1 [],
        compute_mean_org_cls "covariance"
          (clsMeanStateBefore [[0], [1]] (fun _ => [[(0:ℝ)], [1]]) 1)
          (fun _ => ([], [])) ((fun _ => [[(0:ℝ)], [1]]) c) c = Except.error "KeyError") ∧
      ([[0], [1]].getD 1 [] ≠ [] →
        compute_mean_org_pass "covariance"
          (clsMeanStateBefore [[0], [1]] (fun _ => [[(0:ℝ)], [1]]) 1)
          (fun _ => ([], [])) (fun _ => [[(0:ℝ)], [1]]) ([[0], [1]].getD 1 [])
          = Except.error "KeyError") :=
  org_density_estimation_keyerror "covariance" [[0], [1]] (fun _ => [[(0:ℝ)], [1]])
    (fun _ => ([], [])) 1 (Or.inl rfl) (by decide)

lemma runCalibrations_id (calls : List CalibCall) (st : EngineState) :
    runCalibrations calls st = st := by
  unfold runCalibrations
  induction calls with
  | nil => rfl
  | cons c cs ih =>
    rw [List.foldl_cons]
    exact ih

/-- C1 (code bug): the assignments to old_data/old_labels at lines 696-697 have
no `global` declaration inside train_task_adaptive_prediction, so they bind
function-locals and the module-level rehearsal buffer initialized at lines
252-255 is never written.  Hence after any sequence of calibration phases the
buffer read by cluster_loss (line 833) is still empty: randperm over it is
empty, its replay slice is empty (never non-empty, never up to batch_size*5
elements), and the batch fed to the contrastive losses is exactly the current
minibatch, unchanged. -/
theorem rehearsal_buffer_never_written (calls : List CalibCall) (perm : List ℕ) (bs : ℕ)
    (features : List (List ℝ)) (targets : List ℕ)
    (hperm : ∀ k ∈ perm, k < (runCalibrations calls engineInit).oldData.length) :
    (runCalibrations calls engineInit).oldData = [] ∧
      cluster_loss_batch (runCalibrations calls engineInit) perm bs features targets
        = (features, targets) := by
  have hrun : runCalibrations calls engineInit = engineInit := runCalibrations_id calls engineInit
  rw [hrun] at hperm ⊢
  have hpermnil : perm = [] := by
    cases perm with
    | nil => rfl
    | cons k ks =>
      have hk := hperm k (List.mem_cons_self k ks)
      simp [engineInit] at hk
  subst hpermnil
  refine ⟨rfl, ?_⟩
  unfold cluster_loss_batch
  simp

/-- Witness for C1's theorem at a concrete input: one completed calibration
phase, then an ordinary-training step whose batch is left exactly as it came
(the replay slice is empty). -/
theorem rehearsal_buffer_never_written_witness :
    (runCalibrations [⟨[[0]], 0, fun _ => [0], fun _ _ _ => 0, 5⟩] engineInit).oldData = [] ∧
      cluster_loss_batch (runCalibrations [⟨[[0]], 0, fun _ => [0], fun _ _ _ => 0, 5⟩] engineInit)
        [] 1 [[(1:ℝ), 0]] [0] = ([[(1:ℝ), 0]], [0]) :=
  rehearsal_buffer_never_written [⟨[[0]], 0, fun _ => [0], fun _ _ _ => 0, 5⟩] [] 1
    [[(1:ℝ), 0]] [0] (by simp)

lemma wmStep_apply (g : ℕ → ℕ → ℝ) (lab : List ℕ) (W : ℕ → ℕ → ℝ) (p : ℕ × ℕ) (a b : ℕ) :
    wmStep g lab W p a b =
      if W p.1 p.2 ≠ 0 then W a b
      else if (a = p.1 ∧ b = p.2) ∨ (a = p.2 ∧ b = p.1) then g (lab.getD p.1 0) (lab.getD p.2 0)
      else W a b := rfl

lemma wmStep_zo (g : ℕ → ℕ → ℝ) (lab : List ℕ) (W : ℕ → ℕ → ℝ) (p : ℕ × ℕ)
    (hg : ∀ x y, g x y = 1) (hW : ∀ a b, W a b = 0 ∨ W a b = 1) :
    ∀ a b, wmStep g lab W p a b = 0 ∨ wmStep g lab W p a b = 1 := by
  intro a b
  rw [wmStep_apply]
  by_cases h : W p.1 p.2 ≠ 0
  · rw [if_pos h]; exact hW a b
  · rw [if_neg h]
    by_cases hc : (a = p.1 ∧ b = p.2) ∨ (a = p.2 ∧ b = p.1)
    · rw [if_pos hc, hg]
      exact Or.inr rfl
    · rw [if_neg hc]; exact hW a b

lemma wmStep_keep_one (g : ℕ → ℕ → ℝ) (lab : List ℕ) (W : ℕ → ℕ → ℝ) (p : ℕ × ℕ) (a b : ℕ)
    (hg : ∀ x y, g x y = 1) (h1 : W a b = 1) : wmStep g lab W p a b = 1 := by
  rw [wmStep_apply]
  by_cases h : W p.1 p.2 ≠ 0
  · rw [if_pos h]; exact h1
  · rw [if_neg h]
    by_cases hc : (a = p.1 ∧ b = p.2) ∨ (a = p.2 ∧ b = p.1)
    · rw [if_pos hc]; exact hg _ _
    · rw [if_neg hc]; exact h1

lemma wmStep_sets_one (g : ℕ → ℕ → ℝ) (lab : List ℕ) (W : ℕ → ℕ → ℝ) (p : ℕ × ℕ)
    (hg : ∀ x y, g x y = 1) (hW : ∀ a b, W a b = 0 ∨ W a b = 1) :
    wmStep g lab W p p.1 p.2 = 1 := by
  rw [wmStep_apply]
  by_cases h : W p.1 p.2 ≠ 0
  · rw [if_pos h]
    rcases hW p.1 p.2 with h0 | h1
    · exact absurd h0 h
    · exact h1
  · have hc1 : (p.1 = p.1 ∧ p.2 = p.2) ∨ (p.1 = p.2 ∧ p.2 = p.1) := Or.inl ⟨rfl, rfl⟩
    rw [if_neg h, if_pos hc1]
    exact hg _ _

lemma foldl_wm_one (g : ℕ → ℕ → ℝ) (lab : List ℕ) (hg : ∀ x y, g x y = 1) :
    ∀ (L : List (ℕ × ℕ)) (W : ℕ → ℕ → ℝ), (∀ a b, W a b = 0 ∨ W a b = 1) →
      ∀ q ∈ L, (L.foldl (wmStep g lab) W) q.1 q.2 = 1 := by
  intro L
  induction L with
  | nil => intro W _ q hq; exact absurd hq (List.not_mem_nil q)
  | cons p L ih =>
    intro W hW q hq
    rcases List.mem_cons.mp hq with rfl | hqL
    · have hset : (wmStep g lab W q) q.1 q.2 = 1 := wmStep_sets_one g lab W q hg hW
      have hkeep : ∀ (L2 : List (ℕ × ℕ)) (W2 : ℕ → ℕ → ℝ), W2 q.1 q.2 = 1 →
          (L2.foldl (wmStep g lab) W2) q.1 q.2 = 1 := by
        intro L2
        induction L2 with
        | nil => intro W2 h; exact h
        | cons r L2 ihL =>
          intro W2 h
          exact ihL _ (wmStep_keep_one g lab W2 r q.1 q.2 hg h)
      exact hkeep L (wmStep g lab W q) hset
    · exact ih (wmStep g lab W p) (wmStep_zo g lab W p hg hW) q hqL

lemma weightMatrix_one (g : ℕ → ℕ → ℝ) (lab : List ℕ) (n i j : ℕ)
    (hg : ∀ x y, g x y = 1) (hi : i < n) (hj : j < n) :
    weightMatrix (some g) lab n i j = 1 := by
  have hmem : ((i, j) : ℕ × ℕ) ∈ idxPairs n := mem_idxPairs.mpr ⟨hi, hj⟩
  have hdef : weightMatrix (some g) lab n = (idxPairs n).foldl (wmStep g lab) (fun _ _ => 0) := rfl
  rw [hdef]
  exact foldl_wm_one g lab hg (idxPairs n) (fun _ _ => 0) (fun _ _ => Or.inl rfl) (i, j) hmem

lemma normalizeF_one_zero : normalizeF [(1:ℝ), 0] = [1, 0] := by
  unfold normalizeF l2norm dotR
  have hd : (List.zipWith (fun x y => x * y) [(1:ℝ), 0] [(1:ℝ), 0]).sum = 1 := by
    norm_num
  rw [hd, Real.sqrt_one]
  have hmax : max (1:ℝ) 1e-12 = 1 := max_eq_left (by norm_num)
  rw [hmax]
  norm_num

lemma sclSim_pairbatch (i j : ℕ) (hi : i < 2) (hj : j < 2) :
    sclSim [[(1:ℝ), 0], [1, 0]] [0, 0] (1/10) (some (fun _ _ => 1)) i j = 10 := by
  have hgetD : ∀ k, k < 2 → ([[(1:ℝ), 0], [1, 0]] : List (List ℝ)).getD k [] = [1, 0] := by
    intro k hk
    interval_cases k
    · rfl
    · rfl
  unfold sclSim
  have hlen : ([[(1:ℝ), 0], [1, 0]] : List (List ℝ)).length = 2 := rfl
  rw [hgetD i hi, hgetD j hj, normalizeF_one_zero, hlen,
    weightMatrix_one (fun _ _ => 1) [0, 0] 2 i j (fun _ _ => rfl) hi hj]
  unfold dotR
  norm_num

lemma rowMax_pairbatch (i : ℕ) (hi : i < 2) :
    rowMax (sclSim [[(1:ℝ), 0], [1, 0]] [0, 0] (1/10) (some (fun _ _ => 1)) i) 2 = 10 := by
  unfold rowMax
  have hr : List.range 2 = [0, 1] := rfl
  rw [hr]
  simp only [List.foldl_cons, List.foldl_nil]
  rw [sclSim_pairbatch i 0 hi (by norm_num), sclSim_pairbatch i 1 hi (by norm_num)]
  norm_num

lemma sclLogits_pairbatch (i j : ℕ) (hi : i < 2) (hj : j < 2) :
    sclLogits [[(1:ℝ), 0], [1, 0]] [0, 0] (1/10) (some (fun _ _ => 1)) i j = 0 := by
  unfold sclLogits
  have hlen : ([[(1:ℝ), 0], [1, 0]] : List (List ℝ)).length = 2 := rfl
  rw [hlen, sclSim_pairbatch i j hi hj, rowMax_pairbatch i hi]
  norm_num

lemma sclLogProb_pairbatch (i j : ℕ) (hi : i < 2) (hj : j < 2) :
    sclLogProb [[(1:ℝ), 0], [1, 0]] [0, 0] (1/10) (some (fun _ _ => 1)) i j
      = -Real.log 2 := by
  unfold sclLogProb
  have hlen : ([[(1:ℝ), 0], [1, 0]] : List (List ℝ)).length = 2 := rfl
  rw [hlen]
  have hr : List.range 2 = [0, 1] := rfl
  rw [hr]
  simp only [List.map_cons, List.map_nil, List.sum_cons, List.sum_nil]
  rw [sclLogits_pairbatch i j hi hj, sclLogits_pairbatch i 0 hi (by norm_num),
    sclLogits_pairbatch i 1 hi (by norm_num), Real.exp_zero]
  norm_num

lemma scl_pairbatch :
    supervised_contrastive_loss [[(1:ℝ), 0], [1, 0]] [0, 0] (1/10) (some (fun _ _ => 1))
      = Real.log 2 := by
  unfold supervised_contrastive_loss
  have hpos : posPairs [0, 0] = [(0, 1), (1, 0)] := rfl
  rw [hpos, if_neg (by decide)]
  simp only [List.map_cons, List.map_nil, List.sum_cons, List.sum_nil]
  rw [sclLogProb_pairbatch 0 1 (by norm_num) (by norm_num),
    sclLogProb_pairbatch 1 0 (by norm_num) (by norm_num)]
  norm_num

/-- Counterexample for C2 at a concrete input: a batch of two identical
examples of label 0, with taxonomy subsets {0} and {1} under uniform Gamma.
The per-subset loss on subset {0} is log 2 and subset {1} matches nothing, so
averaging over the non-empty subsets as the claim states would give log 2; the
code divides the accumulated total by the number of ALL subsets (line 828) and
returns (log 2) / 2 instead. -/
theorem subsup_divisor_counterexample :
    subsup_loss [[(1:ℝ), 0], [1, 0]] [0, 0] [[0], [1]] (1/10) ⟨false, 1, 2, fun _ _ => 0⟩
      ≠ subsup_loss_spec_average [[(1:ℝ), 0], [1, 0]] [0, 0] [[0], [1]] (1/10)
          ⟨false, 1, 2, fun _ _ => 0⟩ := by
  have hγ : subsup_gamma ⟨false, 1, 2, fun _ _ => 0⟩ = fun _ _ => 1 := rfl
  have hF1 : restrictFeatures [[(1:ℝ), 0], [1, 0]] [0, 0] [0] = [[(1:ℝ), 0], [1, 0]] := rfl
  have hL1 : restrictLabels [[(1:ℝ), 0], [1, 0]] [0, 0] [0] = [0, 0] := rfl
  have hF2 : restrictFeatures [[(1:ℝ), 0], [1, 0]] [0, 0] [1] = [] := rfl
  have hcode : subsup_loss [[(1:ℝ), 0], [1, 0]] [0, 0] [[0], [1]] (1/10)
      ⟨false, 1, 2, fun _ _ => 0⟩ = Real.log 2 / 2 := by
    unfold subsup_loss
    simp only [List.foldl_cons, List.foldl_nil]
    rw [hF1, hL1, hF2, hγ, if_pos (by decide : 1 < ([[(1:ℝ), 0], [1, 0]] : List (List ℝ)).length),
      if_neg (by decide : ¬ 1 < ([] : List (List ℝ)).length), scl_pairbatch]
    norm_num
  have hspec : subsup_loss_spec_average [[(1:ℝ), 0], [1, 0]] [0, 0] [[0], [1]] (1/10)
      ⟨false, 1, 2, fun _ _ => 0⟩ = Real.log 2 := by
    unfold subsup_loss_spec_average
    have hfil : List.filter
        (fun S => !(restrictFeatures [[(1:ℝ), 0], [1, 0]] [0, 0] S).isEmpty) [[0], [1]]
        = [[0]] := rfl
    rw [hfil]
    simp only [List.map_cons, List.map_nil, List.sum_cons, List.sum_nil,
      List.length_cons, List.length_nil]
    rw [hF1, hL1, hγ, scl_pairbatch]
    norm_num
  rw [hcode, hspec]
  have hlog : 0 < Real.log 2 := Real.log_pos (by norm_num)
  intro h
  linarith

lemma foldl_guarded_add {α : Type} (P : α → Prop) [DecidablePred P] (g : α → ℝ) :
    ∀ (L : List α) (a : ℝ),
      L.foldl (fun acc S => if P S then acc + g S else acc) a
        = a + (L.map (fun S => if P S then g S else 0)).sum := by
  intro L
  induction L with
  | nil => intro a; simp
  | cons S L ih =>
    intro a
    rw [List.foldl_cons, List.map_cons, List.sum_cons, ih]
    by_cases h : P S
    · rw [if_pos h, if_pos h]; ring
    · rw [if_neg h, if_neg h]; ring

/-- C2 amended: for every feature batch, label vector and subset sequence, the
taxonomy-scoped loss equals the sum of per-subset supervised contrastive losses
over the subsets whose restricted batch has more than one member (a subset with
zero or one matching members contributes a zero term), divided by the number of
ALL subsets: a memberless subset still enters the divisor. -/
theorem subsup_loss_total_divisor (features : List (List ℝ)) (labels : List ℕ)
    (label_sets : List (List ℕ)) (T : ℝ) (args : SubArgs) :
    subsup_loss features labels label_sets T args
      = ((label_sets.map (fun S =>
            if 1 < (restrictFeatures features labels S).length then
              supervised_contrastive_loss (restrictFeatures features labels S)
                (restrictLabels features labels S) T (some (subsup_gamma args))
            else 0)).sum) / label_sets.length := by
  unfold subsup_loss
  have h := foldl_guarded_add (fun S => 1 < (restrictFeatures features labels S).length)
    (fun S => supervised_contrastive_loss (restrictFeatures features labels S)
      (restrictLabels features labels S) T (some (subsup_gamma args))) label_sets 0
  rw [zero_add] at h
  rw [h]

end TCLEngine
